import Mathlib

/-!
Verification of the google-sheets-writer reconciliation core.

Shallow embedding of the TypeScript sources:
* retry executor (retry.ts): `RetryConfig`, `calculateRetryDelay`, `shouldRetry`,
  `retryOperation`;
* schema and value mapper (mapper.ts): `collectAllFields`, `mergeColumns`,
  `normalizeDate`, `recordsToRows`, `rowsToRecords`, `extractDatesFromRecords`,
  `groupConsecutiveRanges`;
* writer (index.ts): `acquireLock`, `performFullRefresh`,
  `performIncrementalUpdate`, `writeData`.

JavaScript numbers are modelled by `ℚ` (the values exercised here are exact in
binary floating point), stateful I/O by explicit action traces, and the
implementation-defined general date parser of the runtime by an explicit
function parameter.
-/

/-! ### Retry executor (retry.ts) -/

structure RetryConfig where
  maxRetries : Nat
  baseDelay : ℚ
  maxDelay : ℚ
deriving DecidableEq

/-- `calculateRetryDelay(attempt, config)` with the outcome of `Math.random()`
made explicit: `rand` ranges over `[0, 1)`. -/
def calculateRetryDelay (attempt : Nat) (config : RetryConfig) (rand : ℚ) : ℚ :=
  let exponentialDelay := min (config.baseDelay * 2 ^ attempt) config.maxDelay
  let jitter := exponentialDelay * (1/4) * (rand * 2 - 1)
  max config.baseDelay (exponentialDelay + jitter)

/-- A JavaScript error value as inspected by `shouldRetry`: `code` is either a
numeric HTTP code or a string such as ECONNRESET, `status` a numeric HTTP
status, `message` the message property (`none` models `undefined`). -/
structure JsError where
  code : Option (Int ⊕ String)
  status : Option Int
  message : Option String
deriving DecidableEq

def retryableErrors : List String :=
  ["RATE_LIMIT_EXCEEDED", "QUOTA_EXCEEDED", "INTERNAL_ERROR",
   "BACKEND_ERROR", "SERVICE_UNAVAILABLE", "TIMEOUT"]

def retryableHttpCodes : List Int := [429, 500, 502, 503, 504]

def networkErrorCodes : List String :=
  ["ECONNRESET", "ETIMEDOUT", "ENOTFOUND", "EAI_AGAIN"]

/-- JavaScript truthiness of the `code` property (`0` and the empty string are
falsy). -/
def codeTruthy : Option (Int ⊕ String) → Bool
  | none => false
  | some (.inl n) => n ≠ 0
  | some (.inr s) => s ≠ ""

/-- `retryableHttpCodes.includes(error.code)`: a string-valued code never
equals a number. -/
def codeInHttpList : Option (Int ⊕ String) → Bool
  | some (.inl n) => n ∈ retryableHttpCodes
  | _ => false

/-- `['ECONNRESET', ...].includes(error.code)`: a number-valued code never
equals a string. -/
def codeInNetworkList : Option (Int ⊕ String) → Bool
  | some (.inr s) => s ∈ networkErrorCodes
  | _ => false

def statusTruthy : Option Int → Bool
  | none => false
  | some n => n ≠ 0

def statusInHttpList : Option Int → Bool
  | none => false
  | some n => n ∈ retryableHttpCodes

/-- ASCII model of `String.prototype.toUpperCase`. -/
def jsToUpper (s : String) : String := ⟨s.data.map Char.toUpper⟩

def listHasInfixAux (needle : List Char) : List Char → Bool
  | [] => needle.isEmpty
  | c :: rest => needle.isPrefixOf (c :: rest) || listHasInfixAux needle rest

/-- `hay.includes(needle)` on strings. -/
def strIncludes (hay needle : String) : Bool :=
  listHasInfixAux needle.data hay.data

/-- `shouldRetry(error)` from retry.ts, including its early return on the
message branch: when `error.message` is truthy the function returns the
keyword-match result and the network-code check below it is never reached. -/
def shouldRetry (e : JsError) : Bool :=
  if codeTruthy e.code && codeInHttpList e.code then true
  else if statusTruthy e.status && statusInHttpList e.status then true
  else if msgTruthy e.message then
    retryableErrors.any fun r => strIncludes (jsToUpper (msgText e.message)) r
  else if codeTruthy e.code && codeInNetworkList e.code then true
  else false
where
  msgTruthy : Option String → Bool
    | none => false
    | some m => m ≠ ""
  msgText : Option String → String
    | none => ""
    | some m => m

/-- Outcome of one attempt of the wrapped operation. -/
inductive Attempt (α : Type) where
  | ok (value : α)
  | err (e : JsError)

/-- Rendering of `lastError.message` inside a template string: `undefined`
when absent. -/
def errMessageText (e : JsError) : String :=
  match e.message with
  | some m => m
  | none => "undefined"

/-- The error thrown after the retry loop ends without a successful attempt. -/
def wrapMessage (maxRetries : Nat) (e : JsError) : String :=
  "Operation failed after " ++ toString (maxRetries + 1) ++
    " attempts. Last error: " ++ errMessageText e

/-- The loop body of `retryOperation`: `attempt` is the current 0-based
attempt index and `remaining = maxRetries - attempt` counts the attempts the
`for` loop still allows. The loop breaks (and the wrapped error is thrown)
when the error is not retryable or `attempt >= maxRetries`. -/
def retryLoop (op : Nat → Attempt α) (maxRetries : Nat) :
    Nat → Nat → Except String α
  | attempt, remaining =>
    match op attempt with
    | .ok v => .ok v
    | .err e =>
      match remaining with
      | 0 => .error (wrapMessage maxRetries e)
      | r + 1 =>
        if shouldRetry e then retryLoop op maxRetries (attempt + 1) r
        else .error (wrapMessage maxRetries e)

/-- `retryOperation(operation, config)`; `op k` is the outcome the operation
produces on its `k`-th invocation. -/
def retryOperation (op : Nat → Attempt α) (config : RetryConfig) :
    Except String α :=
  retryLoop op config.maxRetries 0 config.maxRetries

/-! ### Schema and value mapper (mapper.ts) -/

/-- A dynamically-typed JSON/JavaScript value. Numeric values are modelled as
integers (the claims never exercise non-integral numbers). -/
inductive JsValue where
  | null
  | undef
  | bool (b : Bool)
  | num (n : Int)
  | str (s : String)
  | arr (elems : List JsValue)
  | obj (fields : List (String × JsValue))

/-- A record: an insertion-ordered open mapping from field names to values. -/
def JsRecord := List (String × JsValue)

/-- Property access `record[key]`; a missing property reads as `undefined`. -/
def recordGet (record : JsRecord) (key : String) : JsValue :=
  match List.lookup key record with
  | some v => v
  | none => .undef

def JsRecord.keys (record : JsRecord) : List String := record.map Prod.fst

/-- JavaScript truthiness. -/
def jsTruthy : JsValue → Bool
  | .null => false
  | .undef => false
  | .bool b => b
  | .num n => n ≠ 0
  | .str s => s ≠ ""
  | .arr _ => true
  | .obj _ => true

def decDigits (n : Nat) : List Char :=
  if n < 10 then [Nat.digitChar n]
  else decDigits (n / 10) ++ [Nat.digitChar (n % 10)]
decreasing_by exact Nat.div_lt_self (by omega) (by omega)

/-- Decimal rendering of an integral JavaScript number inside a template
string or `String(...)`. -/
def intDec (i : Int) : String :=
  if i < 0 then ⟨'-' :: decDigits (-i).toNat⟩ else ⟨decDigits i.toNat⟩

mutual

/-- `String(value)`: `Array.prototype.toString` joins element strings with
commas, rendering `null`/`undefined` elements as empty. -/
def jsString (v : JsValue) : String :=
  match v with
  | .null => "null"
  | .undef => "undefined"
  | .bool b => if b then "true" else "false"
  | .num n => intDec n
  | .str s => s
  | .arr elems => jsArrJoin elems
  | .obj _ => "[object Object]"
termination_by (sizeOf v, 0)

def jsArrJoin (elems : List JsValue) : String :=
  match elems with
  | [] => ""
  | [v] => jsArrElem v
  | v :: rest => jsArrElem v ++ "," ++ jsArrJoin rest
termination_by (sizeOf elems, 2)

def jsArrElem (v : JsValue) : String :=
  match v with
  | .null => ""
  | .undef => ""
  | other => jsString other
termination_by (sizeOf v, 1)

end

def jsonEscapeChar (c : Char) : List Char :=
  if c = '"' then ['\\', '"']
  else if c = '\\' then ['\\', '\\'] else [c]

mutual

/-- `JSON.stringify` over the modelled value fragment (string escaping is
modelled for quotes and backslashes; the records stringified by the writer
come from `JSON.parse`, which never produces `undefined` values, so the
special casing of `undefined` is immaterial here). -/
def jsonStringify (v : JsValue) : String :=
  match v with
  | .null => "null"
  | .undef => "null"
  | .bool b => if b then "true" else "false"
  | .num n => intDec n
  | .str s => ⟨'"' :: (s.data.flatMap jsonEscapeChar) ++ ['"']⟩
  | .arr elems => "[" ++ jsonJoinArr elems ++ "]"
  | .obj fields => "\x7b" ++ jsonJoinObj fields ++ "\x7d"
termination_by (sizeOf v, 0)

def jsonJoinArr (elems : List JsValue) : String :=
  match elems with
  | [] => ""
  | [v] => jsonStringify v
  | v :: rest => jsonStringify v ++ "," ++ jsonJoinArr rest
termination_by (sizeOf elems, 1)

def jsonJoinObj (fields : List (String × JsValue)) : String :=
  match fields with
  | [] => ""
  | [(k, v)] => jsonStringify (.str k) ++ ":" ++ jsonStringify v
  | (k, v) :: rest =>
    jsonStringify (.str k) ++ ":" ++ jsonStringify v ++ "," ++ jsonJoinObj rest
termination_by (sizeOf fields, 1)

end

/-- `collectAllFields(records)`: the union of all field names across the
batch in first-seen order, excluding the `__rowNumber` bookkeeping key. -/
def collectAllFields (records : List JsRecord) : List String :=
  records.foldl
    (fun fields record =>
      record.keys.foldl
        (fun fs key =>
          if key = "__rowNumber" then fs
          else if key ∈ fs then fs else fs ++ [key])
        fields)
    []

/-- `mergeColumns(existingColumns, newFields)`: existing columns stay in
place, unseen incoming fields are appended at the end. -/
def mergeColumns (existingColumns newFields : List String) : List String :=
  newFields.foldl
    (fun result field => if field ∈ result then result else result ++ [field])
    existingColumns

/-- ASCII model of `String.prototype.toLowerCase`. -/
def jsToLower (s : String) : String := ⟨s.data.map Char.toLower⟩

/-- `isDateField(columnName)`: membership of the lower-cased name in the
configured date-field list. -/
def isDateField (dateFields : List String) (columnName : String) : Bool :=
  jsToLower columnName ∈ dateFields

/-! ### Date normalization (mapper.ts `normalizeDate`) -/

/-- The calendar date a JavaScript `Date` reports through its local getters:
`year = getFullYear()`, `month = getMonth() + 1` (1-based), `day = getDate()`. -/
structure JSDate where
  year : Int
  month : Nat
  day : Nat
deriving DecidableEq

def isLeapYear (y : Int) : Bool := (y % 4 = 0 ∧ y % 100 ≠ 0) ∨ y % 400 = 0

def daysInMonth (y : Int) (m : Nat) : Nat :=
  if m = 2 then (if isLeapYear y then 29 else 28)
  else if m = 4 ∨ m = 6 ∨ m = 9 ∨ m = 11 then 30
  else 31

/-- Validity of a proleptic-Gregorian calendar date; for a canonical
`YYYY-MM-DD` string this is exactly when `new Date(s + 'T00:00:00.000Z')`
yields a valid `Date` (ECMA-262 date-time string parsing). -/
def validCalendarDate (y : Int) (m d : Nat) : Bool :=
  1 ≤ m ∧ m ≤ 12 ∧ 1 ≤ d ∧ d ≤ daysInMonth y m

def digitVal (c : Char) : Nat := c.toNat - '0'.toNat

/-- Matching of `/^\d{4}-\d{2}-\d{2}$/` together with extraction of the three
numeric fields. -/
def parseCanonical : List Char → Option (Int × Nat × Nat)
  | [y1, y2, y3, y4, s1, m1, m2, s2, d1, d2] =>
    if y1.isDigit ∧ y2.isDigit ∧ y3.isDigit ∧ y4.isDigit ∧ s1 = '-' ∧
        m1.isDigit ∧ m2.isDigit ∧ s2 = '-' ∧ d1.isDigit ∧ d2.isDigit then
      some ((digitVal y1 * 1000 + digitVal y2 * 100 + digitVal y3 * 10 + digitVal y4 : Nat),
        digitVal m1 * 10 + digitVal m2, digitVal d1 * 10 + digitVal d2)
    else none
  | _ => none

/-- ASCII fragment of the whitespace class removed by
`String.prototype.trim`. -/
def isJsWs (c : Char) : Bool :=
  c = ' ' ∨ c = '\t' ∨ c = '\n' ∨ c = '\r' ∨ c = '\x0b' ∨ c = '\x0c'

def trimChars (l : List Char) : List Char :=
  ((l.dropWhile isJsWs).reverse.dropWhile isJsWs).reverse

def jsTrim (s : String) : String := ⟨trimChars s.data⟩

/-- `String(n).padStart(2, '0')`. -/
def pad2 (n : Nat) : String :=
  if n < 10 then ⟨'0' :: decDigits n⟩ else ⟨decDigits n⟩

/-- The `${year}-${month}-${day}` formatting of `normalizeDate`, built from
the parsed date's local-calendar components. -/
def formatYMD (d : JSDate) : String :=
  intDec d.year ++ "-" ++ pad2 d.month ++ "-" ++ pad2 d.day

/-- `normalizeDate(dateString)` from mapper.ts. `impl` is the
implementation-defined general parser applied by `new Date(...)` to strings
that are not in canonical shape, reported through the local getters used by
the formatting code. Strings in canonical `YYYY-MM-DD` shape are parsed per
ECMA-262: valid calendar dates are returned unchanged, out-of-range ones
yield an invalid `Date` (in the fixed-up engines this source targets) and so
normalize to the empty string. -/
def normalizeDate (impl : String → Option JSDate) (dateString : String) : String :=
  if dateString = "" then ""
  else
    let cleaned := jsTrim dateString
    match parseCanonical cleaned.data with
    | some (y, m, d) => if validCalendarDate y m d then cleaned else ""
    | none =>
      match impl cleaned with
      | none => ""
      | some date => formatYMD date

/-! ### Remaining mapper operations -/

/-- Is the value `== null` or `=== ''` (the first guard of
`processFieldValue`)? -/
def isEmptyish : JsValue → Bool
  | .null => true
  | .undef => true
  | .str "" => true
  | _ => false

/-- A cell value sent to the store: string, number or boolean. -/
inductive Cell where
  | s (v : String)
  | n (v : Int)
  | b (v : Bool)
deriving DecidableEq

/-- `processFieldValue(value, columnName)`: empty for null/empty, normalized
date string for date fields (falling back to the raw string), JSON text for
arrays and objects, numbers and booleans passed through, everything else
stringified. -/
def processFieldValue (impl : String → Option JSDate) (dateFields : List String)
    (value : JsValue) (columnName : String) : Cell :=
  if isEmptyish value then .s ""
  else if isDateField dateFields columnName then
    let normalized := normalizeDate impl (jsString value)
    .s (if normalized = "" then jsString value else normalized)
  else
    match value with
    | .arr elems => .s (jsonStringify (.arr elems))
    | .obj fields => .s (jsonStringify (.obj fields))
    | .num n => .n n
    | .bool b => .b b
    | v => .s (jsString v)

/-- `recordsToRows(records, columns)`. -/
def recordsToRows (impl : String → Option JSDate) (dateFields : List String)
    (records : List JsRecord) (columns : List String) : List (List Cell) :=
  records.map fun record =>
    columns.map fun column =>
      processFieldValue impl dateFields (recordGet record column) column

/-- `getRecordDate(record)`: the stringified value of the first configured
date field with a truthy value, else the empty string. -/
def getRecordDate (dateFields : List String) (record : JsRecord) : String :=
  match dateFields.find? (fun f => jsTruthy (recordGet record f)) with
  | some f => jsString (recordGet record f)
  | none => ""

/-- `extractDatesFromRecords(records)`: the set of normalized dates found in
the batch, in JavaScript default (lexicographic string) sort order. -/
def extractDatesFromRecords (impl : String → Option JSDate)
    (dateFields : List String) (records : List JsRecord) : List String :=
  let dates := records.foldl
    (fun acc record =>
      let date := getRecordDate dateFields record
      if date ≠ "" then
        let normalizedDate := normalizeDate impl date
        if normalizedDate ≠ "" then
          (if normalizedDate ∈ acc then acc else acc ++ [normalizedDate])
        else acc
      else acc)
    []
  List.insertionSort (· ≤ ·) dates

/-- A stored row paired with its 1-based sheet position. -/
structure ProcessedRecord where
  data : JsRecord
  rowNumber : Int

/-- Removal of the text-forcing apostrophe the store prepends to date-shaped
text. -/
def stripLeadingQuote (s : String) : String :=
  match s.data with
  | '\'' :: rest => ⟨rest⟩
  | _ => s

/-- `!cell || cell.toString().trim() === ''` for a string cell. -/
def cellBlank (c : String) : Bool := c = "" || jsTrim c = ""

def rowBlank (row : List String) : Bool := row.all cellBlank

def rowToRecord (headers : List String) (row : List String) : JsRecord :=
  headers.mapIdx fun index header =>
    (header, JsValue.str (stripLeadingQuote (row.getD index "")))

/-- `rowsToRecords(rows, headers)`: skip the header row and fully blank rows,
zip headers to cells (missing cells read as empty), strip a leading
apostrophe, and record the 1-based row position (`i + 1` for the row at
0-based index `i` of the snapshot). -/
def rowsToRecords (rows : List (List String)) (headers : List String) :
    List ProcessedRecord :=
  ((rows.drop 1).mapIdx fun j row => (j, row)).filterMap fun p =>
    if rowBlank p.2 then none
    else some ⟨rowToRecord headers p.2, (p.1 : Int) + 2⟩

/-- `findDateColumnIndices(columns)`. -/
def findDateColumnIndices (dateFields : List String) (columns : List String) :
    List Nat :=
  (columns.mapIdx fun index column => (index, column)).filterMap fun p =>
    if isDateField dateFields p.2 then some p.1 else none

/-! ### Row-range grouping (mapper.ts `groupConsecutiveRanges`) -/

/-- An inclusive row range; `start`/`end_` mirror the source's `start`/`end`
fields. -/
structure SheetRange where
  start : Int
  end_ : Int
deriving DecidableEq

/-- Sorting with the comparator `(a, b) => b - a`, i.e. descending. -/
def sortDesc (l : List Int) : List Int := List.insertionSort (· ≥ ·) l

/-- The loop of `groupConsecutiveRanges`: `start` is the first (largest)
element of the current run, `curEnd` its last (smallest) element so far, and
`ranges` the ranges already emitted. A closed run is pushed as
`{start: curEnd, end: start}`. -/
def groupLoop (sorted : List Int) (start curEnd : Int)
    (ranges : List SheetRange) : List SheetRange :=
  match sorted with
  | [] => ranges ++ [⟨curEnd, start⟩]
  | x :: rest =>
    if x = curEnd - 1 then groupLoop rest start x ranges
    else groupLoop rest x x (ranges ++ [⟨curEnd, start⟩])

/-- `groupConsecutiveRanges(numbers)`: sort descending, coalesce consecutive
runs, emit ranges in descending order. -/
def groupConsecutiveRanges (numbers : List Int) : List SheetRange :=
  match sortDesc numbers with
  | [] => []
  | h :: rest => groupLoop rest h h []

/-- Membership of a row position in an inclusive range. -/
def rangeMem (r : SheetRange) (x : Int) : Prop := r.start ≤ x ∧ x ≤ r.end_

/-! ### Lock manager (index.ts `acquireLock`) -/

/-- Staleness threshold: 30 minutes in milliseconds. -/
def lockStaleThresholdMs : Int := 30 * 60 * 1000

/-- The state of the lock file on disk: its mtime in epoch milliseconds. -/
structure LockState where
  mtimeMs : Int
deriving DecidableEq

/-- The record written into a fresh lock file. -/
structure LockData where
  pid : Int
  timestamp : String
  sheet : String
deriving DecidableEq

/-- `Math.round`. -/
def jsRound (q : ℚ) : Int := ⌊q + 1/2⌋

def lockContentionMessage (lockFile : String) (lockAge : Int) : String :=
  "Another writer process is running (lock age: " ++
    intDec (jsRound ((lockAge : ℚ) / 1000)) ++ "s). Please wait or remove " ++ lockFile

/-- `acquireLock()`: a missing lock file (ENOENT) lets acquisition proceed; an
existing one older than the staleness threshold is unlinked and replaced; a
younger one raises the contention error naming the lock's age in seconds. On
success the new lock record is written. -/
def acquireLock (now : Int) (existing : Option LockState) (lockFile : String)
    (newLock : LockData) : Except String LockData :=
  match existing with
  | none => .ok newLock
  | some st =>
    let lockAge := now - st.mtimeMs
    if lockAge > lockStaleThresholdMs then .ok newLock
    else .error (lockContentionMessage lockFile lockAge)

/-! ### Reconciliation engine (index.ts) -/

structure WriteStats where
  totalRecords : Nat
  newRecords : Nat
  updatedRecords : Nat
  deletedRecords : Nat
  newColumns : List String
deriving DecidableEq

/-- One observable interaction of `writeData` with the outside world: sheet
reads, sheet mutations, and lock handling. -/
inductive StoreAction where
  | readSnapshot
  | readAvailableRows
  | replaceAllData (data : List (List Cell)) (columnCount : Nat)
  | formatDateColumns (dateColumnIndices : List Nat)
  | deleteRows (ranges : List SheetRange)
  | addColumns (newColumns : List String) (startColumn : Nat)
  | addRowsToSheet (rowsToAdd : Nat)
  | appendRows (data : List (List Cell)) (valueInputOption : String)
  | lockAcquire
  | lockRelease
deriving DecidableEq

def actionMutatesStore : StoreAction → Bool
  | .replaceAllData _ _ => true
  | .formatDateColumns _ => true
  | .deleteRows _ => true
  | .addColumns _ _ => true
  | .addRowsToSheet _ => true
  | .appendRows _ _ => true
  | _ => false

def actionTouchesLock : StoreAction → Bool
  | .lockAcquire => true
  | .lockRelease => true
  | _ => false

/-- `findRowsToDelete(existingRecords, datesToUpdate)`: row numbers of stored
rows whose normalized date is among the incoming partitions, sorted
descending. -/
def findRowsToDelete (impl : String → Option JSDate) (dateFields : List String)
    (existingRecords : List ProcessedRecord) (datesToUpdate : List String) :
    List Int :=
  sortDesc ((existingRecords.filter fun record =>
    datesToUpdate.contains
        (normalizeDate impl (getRecordDate dateFields record.data)) &&
      record.rowNumber != 0).map fun record => record.rowNumber)

/-- `performFullRefresh(newRecords)`: replace everything with
`[header, ...rows]` and format the date columns; in dry-run mode no store
call is made. Returns the write statistics. -/
def performFullRefresh (impl : String → Option JSDate) (dateFields : List String)
    (dryRun : Bool) (records : List JsRecord) : List StoreAction × WriteStats :=
  let allColumns := collectAllFields records
  let dataRows := recordsToRows impl dateFields records allColumns
  let allData := (allColumns.map Cell.s) :: dataRows
  let ops := if dryRun then [] else
    StoreAction.replaceAllData allData allColumns.length ::
      (let dateColumnIndices := findDateColumnIndices dateFields allColumns
       if 0 < dateColumnIndices.length then
         [StoreAction.formatDateColumns dateColumnIndices]
       else [])
  (ops, ⟨records.length, records.length, 0, 0, allColumns⟩)

/-- `performIncrementalUpdate(newRecords)` against a snapshot `existingData`
and a reported sheet capacity `availableRows`: degrade to full refresh on an
empty snapshot, else delete stale partition rows, add new columns, grow
capacity if needed and append, skipping every mutating call in dry-run
mode. -/
def performIncrementalUpdate (impl : String → Option JSDate)
    (dateFields : List String) (dryRun : Bool) (records : List JsRecord)
    (existingData : List (List String)) (availableRows : Nat) :
    List StoreAction × WriteStats :=
  if existingData.length = 0 then
    let fr := performFullRefresh impl dateFields dryRun records
    (StoreAction.readSnapshot :: fr.1, fr.2)
  else
    let existingHeaders := existingData.headD []
    let existingRecords := rowsToRecords existingData existingHeaders
    let datesToUpdate := extractDatesFromRecords impl dateFields records
    let rowsToDelete := findRowsToDelete impl dateFields existingRecords datesToUpdate
    let deletedCount := if 0 < rowsToDelete.length then rowsToDelete.length else 0
    let deleteOps := if 0 < rowsToDelete.length ∧ dryRun = false then
        [StoreAction.deleteRows (groupConsecutiveRanges rowsToDelete)]
      else []
    let newFields := collectAllFields records
    let finalColumns := mergeColumns existingHeaders newFields
    let newColumns := finalColumns.filter fun col => !existingHeaders.contains col
    let columnOps := if 0 < newColumns.length ∧ dryRun = false then
        [StoreAction.addColumns newColumns existingHeaders.length]
      else []
    let currentDataRows := existingRecords.length - deletedCount
    let requiredRows := currentDataRows + records.length + 1
    let capacityOps := if dryRun = false then
        StoreAction.readAvailableRows ::
          (if availableRows < requiredRows ∨ availableRows = 0 then
            [StoreAction.addRowsToSheet 5000]
          else [])
      else []
    let appendOps := if 0 < records.length ∧ dryRun = false then
        let dataRows := recordsToRows impl dateFields records finalColumns
        StoreAction.appendRows dataRows "USER_ENTERED" ::
          (let dateColumnIndices := findDateColumnIndices dateFields finalColumns
           if 0 < dateColumnIndices.length then
             [StoreAction.formatDateColumns dateColumnIndices]
           else [])
      else []
    (StoreAction.readSnapshot :: (deleteOps ++ columnOps ++ capacityOps ++ appendOps),
     ⟨currentDataRows + records.length, records.length, 0, deletedCount, newColumns⟩)

/-- The `try` block of `writeData`: empty batches raise
`'❌ No data to write'`, otherwise the selected mode runs. -/
def writeBody (impl : String → Option JSDate) (dateFields : List String)
    (fullRefresh dryRun : Bool) (records : List JsRecord)
    (existingData : List (List String)) (availableRows : Nat) :
    List StoreAction × Except String WriteStats :=
  if records.length = 0 then ([], .error "❌ No data to write")
  else if fullRefresh then
    let fr := performFullRefresh impl dateFields dryRun records
    (fr.1, .ok fr.2)
  else
    let iu := performIncrementalUpdate impl dateFields dryRun records
      existingData availableRows
    (iu.1, .ok iu.2)

/-- `writeData(dataPath)`: outside dry-run the lock is acquired first (a
contention failure aborts before any other action) and released on every exit
path of the body, success or failure; in dry-run the lock is never touched. -/
def writeData (impl : String → Option JSDate) (dateFields : List String)
    (fullRefresh dryRun : Bool) (now : Int) (lockState : Option LockState)
    (lockFile : String) (newLock : LockData) (records : List JsRecord)
    (existingData : List (List String)) (availableRows : Nat) :
    List StoreAction × Except String WriteStats :=
  if dryRun then
    writeBody impl dateFields fullRefresh dryRun records existingData availableRows
  else
    match acquireLock now lockState lockFile newLock with
    | .error e => ([], .error e)
    | .ok _ =>
      let body := writeBody impl dateFields fullRefresh dryRun records
        existingData availableRows
      (StoreAction.lockAcquire :: body.1 ++ [StoreAction.lockRelease], body.2)

/-! ### Theorems for the retry executor -/

theorem isPrefixOf_self (l : List Char) : l.isPrefixOf l = true := by
  induction l with
  | nil => rfl
  | cons c rest ih => simp [List.isPrefixOf, ih]

theorem listHasInfixAux_append_right (pre l : List Char) :
    listHasInfixAux l (pre ++ l) = true := by
  induction pre with
  | nil =>
    cases l with
    | nil => rfl
    | cons c rest => simp [listHasInfixAux, isPrefixOf_self]
  | cons p pre ih => simp [listHasInfixAux, ih]

theorem strIncludes_append_right (s t : String) : strIncludes (s ++ t) t = true := by
  simp only [strIncludes, String.data_append]
  exact listHasInfixAux_append_right s.data t.data

/-- The retry loop, started at `attempt` with `remaining` further attempts
allowed, throws the wrapped form of the error of the first attempt that either
is not retryable or exhausts the budget. -/
theorem retryLoop_error {α : Type} (op : Nat → Attempt α) (maxRetries : Nat) :
    ∀ (k attempt remaining : Nat) (e : JsError),
      k ≤ remaining →
      (∀ j < k, ∃ ej, op (attempt + j) = .err ej ∧ shouldRetry ej = true) →
      op (attempt + k) = .err e →
      (shouldRetry e = false ∨ k = remaining) →
      retryLoop op maxRetries attempt remaining = .error (wrapMessage maxRetries e) := by
  intro k
  induction k with
  | zero =>
    intro attempt remaining e _ _ hfail hstop
    rw [retryLoop]
    rw [Nat.add_zero] at hfail
    rw [hfail]
    cases remaining with
    | zero => rfl
    | succ r =>
      rcases hstop with hs | hs
      · simp [hs]
      · omega
  | succ k ih =>
    intro attempt remaining e hk hprev hfail hstop
    obtain ⟨r, rfl⟩ : ∃ r, remaining = r + 1 := ⟨remaining - 1, by omega⟩
    obtain ⟨e0, he0, hre0⟩ := hprev 0 (Nat.succ_pos k)
    rw [Nat.add_zero] at he0
    rw [retryLoop, he0]
    simp only [hre0, if_true]
    refine ih (attempt + 1) r e (by omega) ?_ ?_ ?_
    · intro j hj
      obtain ⟨ej, h1, h2⟩ := hprev (j + 1) (by omega)
      exact ⟨ej, by rw [← h1]; ring_nf, h2⟩
    · rw [← hfail]; ring_nf
    · rcases hstop with hs | hs
      · exact Or.inl hs
      · exact Or.inr (by omega)

/-- Claim C4: when an attempt fails with a non-retryable error, or the attempt
budget is exhausted, `retryOperation` propagates a failure built from the last
underlying error, whose message embeds that error's own message. -/
theorem claim_C4 {α : Type} (op : Nat → Attempt α) (config : RetryConfig)
    (k : Nat) (e : JsError)
    (hk : k ≤ config.maxRetries)
    (hprev : ∀ j < k, ∃ ej, op j = .err ej ∧ shouldRetry ej = true)
    (hfail : op k = .err e)
    (hstop : shouldRetry e = false ∨ k = config.maxRetries) :
    retryOperation op config = .error (wrapMessage config.maxRetries e) ∧
    strIncludes (wrapMessage config.maxRetries e) (errMessageText e) = true := by
  constructor
  · refine retryLoop_error op config.maxRetries k 0 config.maxRetries e hk ?_ ?_ hstop
    · simpa using hprev
    · simpa using hfail
  · exact strIncludes_append_right _ _

theorem claim_C4_witness :
    retryOperation (fun _ => Attempt.err (α := Nat) ⟨none, none, some "boom"⟩)
        ⟨2, 1000, 10000⟩ =
      .error (wrapMessage 2 ⟨none, none, some "boom"⟩) ∧
    strIncludes (wrapMessage 2 ⟨none, none, some "boom"⟩)
        (errMessageText ⟨none, none, some "boom"⟩) = true :=
  claim_C4 (fun _ => Attempt.err ⟨none, none, some "boom"⟩) ⟨2, 1000, 10000⟩ 0
    ⟨none, none, some "boom"⟩ (by omega)
    (fun j hj => absurd hj (by omega)) rfl (Or.inl (by decide))

/-- Claim C1 as frozen is false: with `baseDelay = 1000 ≤ maxDelay = 10000`,
retry index `4 ≤ maxRetries = 5` and jitter outcome `Math.random() = 3/4`, the
computed delay is `11250`, outside `[baseDelay, maxDelay]`. -/
theorem claim_C1_counterexample :
    (1000 : ℚ) ≤ 10000 ∧ (4 : Nat) ≤ 5 ∧ (0 : ℚ) ≤ 3/4 ∧ (3/4 : ℚ) < 1 ∧
    calculateRetryDelay 4 ⟨5, 1000, 10000⟩ (3/4) = 11250 ∧
    ¬ calculateRetryDelay 4 ⟨5, 1000, 10000⟩ (3/4) ≤ 10000 := by
  refine ⟨by norm_num, by norm_num, by norm_num, by norm_num, ?_, ?_⟩ <;>
    norm_num [calculateRetryDelay]

/-- Claim C1, amended: for `0 ≤ baseDelay ≤ maxDelay`, any attempt index and
any jitter outcome in `[0, 1]`, the delay lies in
`[baseDelay, maxDelay + maxDelay/4]` (the jitter may exceed `maxDelay` by up
to a quarter of it). -/
theorem claim_C1 (attempt : Nat) (config : RetryConfig) (rand : ℚ)
    (hk : attempt ≤ config.maxRetries)
    (hb : 0 ≤ config.baseDelay) (hbm : config.baseDelay ≤ config.maxDelay)
    (hr0 : 0 ≤ rand) (hr1 : rand ≤ 1) :
    config.baseDelay ≤ calculateRetryDelay attempt config rand ∧
    calculateRetryDelay attempt config rand ≤
      config.maxDelay + config.maxDelay / 4 := by
  have h2 : (0 : ℚ) ≤ config.baseDelay * 2 ^ attempt := by positivity
  have hM : (0 : ℚ) ≤ config.maxDelay := le_trans hb hbm
  simp only [calculateRetryDelay]
  constructor
  · exact le_max_left _ _
  · set e := min (config.baseDelay * 2 ^ attempt) config.maxDelay with he
    have he0 : 0 ≤ e := le_min h2 hM
    have heM : e ≤ config.maxDelay := min_le_right _ _
    apply max_le
    · linarith
    · nlinarith [mul_nonneg he0 (by linarith : (0 : ℚ) ≤ 1 - (rand * 2 - 1))]

theorem claim_C1_witness :
    (2 : Nat) ≤ 5 ∧ (0 : ℚ) ≤ 1000 ∧ (1000 : ℚ) ≤ 10000 ∧
    (0 : ℚ) ≤ 1/2 ∧ (1/2 : ℚ) ≤ 1 ∧
    (1000 : ℚ) ≤ calculateRetryDelay 2 ⟨5, 1000, 10000⟩ (1/2) ∧
    calculateRetryDelay 2 ⟨5, 1000, 10000⟩ (1/2) ≤ 10000 + 10000 / 4 :=
  ⟨by norm_num, by norm_num, by norm_num, by norm_num, by norm_num,
    (claim_C1 2 ⟨5, 1000, 10000⟩ (1/2) (by norm_num) (by norm_num) (by norm_num)
      (by norm_num) (by norm_num)).1,
    (claim_C1 2 ⟨5, 1000, 10000⟩ (1/2) (by norm_num) (by norm_num) (by norm_num)
      (by norm_num) (by norm_num)).2⟩

/-! ### Theorems for `mergeColumns` (claim C5) -/

theorem mergeColumns_cons (e : List String) (f : String) (n : List String) :
    mergeColumns e (f :: n) =
      mergeColumns (if f ∈ e then e else e ++ [f]) n := by
  by_cases hf : f ∈ e <;> simp [mergeColumns, List.foldl_cons, hf]

theorem mergeColumns_extra :
    ∀ (n e : List String), ∃ extra, mergeColumns e n = e ++ extra ∧
      extra.Sublist n ∧ ∀ x ∈ extra, x ∉ e := by
  intro n
  induction n with
  | nil => exact fun e => ⟨[], by simp [mergeColumns], by simp, by simp⟩
  | cons f n ih =>
    intro e
    by_cases hf : f ∈ e
    · obtain ⟨extra, h1, h2, h3⟩ := ih e
      exact ⟨extra, by rw [mergeColumns_cons, if_pos hf]; exact h1,
        h2.cons f, h3⟩
    · obtain ⟨extra, h1, h2, h3⟩ := ih (e ++ [f])
      refine ⟨f :: extra, ?_, h2.cons₂ f, ?_⟩
      · rw [mergeColumns_cons, if_neg hf, h1, List.append_assoc]
        rfl
      · intro x hx
        rcases List.mem_cons.mp hx with rfl | hx
        · exact hf
        · intro hxe
          exact h3 x hx (List.mem_append_left _ hxe)

theorem mergeColumns_nodup :
    ∀ (n e : List String), e.Nodup → (mergeColumns e n).Nodup := by
  intro n
  induction n with
  | nil => exact fun e he => by simpa [mergeColumns] using he
  | cons f n ih =>
    intro e he
    rw [mergeColumns_cons]
    by_cases hf : f ∈ e
    · rw [if_pos hf]; exact ih e he
    · rw [if_neg hf]
      exact ih (e ++ [f]) (by simp [List.nodup_append, he, hf])

theorem mem_mergeColumns_of_mem_left :
    ∀ (n e : List String) (x : String), x ∈ e → x ∈ mergeColumns e n := by
  intro n e x hx
  obtain ⟨extra, h1, -, -⟩ := mergeColumns_extra n e
  rw [h1]
  exact List.mem_append_left _ hx

theorem mem_mergeColumns_of_mem_right :
    ∀ (n e : List String) (f : String), f ∈ n → f ∈ mergeColumns e n := by
  intro n
  induction n with
  | nil => simp
  | cons g n ih =>
    intro e f hf
    rw [mergeColumns_cons]
    rcases List.mem_cons.mp hf with rfl | hf
    · by_cases hg : f ∈ e
      · rw [if_pos hg]
        exact mem_mergeColumns_of_mem_left n e f hg
      · rw [if_neg hg]
        exact mem_mergeColumns_of_mem_left n (e ++ [f]) f (by simp)
    · by_cases hg : g ∈ e
      · rw [if_pos hg]
        exact ih e f hf
      · rw [if_neg hg]
        exact ih (e ++ [g]) f hf

/-- Claim C5 as frozen is false: when the existing column list itself contains
a duplicate, the result does too. -/
theorem claim_C5_counterexample :
    mergeColumns ["a", "a"] [] = ["a", "a"] ∧
    ¬ (mergeColumns ["a", "a"] []).Nodup := ⟨rfl, by decide⟩

/-- Claim C5, amended: `mergeColumns(["a","b"],["b","c"]) = ["a","b","c"]`;
for every pair the existing columns are kept as an unchanged prefix, the
appended tail is a subsequence of the incoming fields none of which already
occurs among the existing columns, every incoming field occurs in the result,
and the result has no duplicates provided the existing columns have none. -/
theorem claim_C5 :
    mergeColumns ["a", "b"] ["b", "c"] = ["a", "b", "c"] ∧
    ∀ (existing incomingFields : List String),
      (∃ extra, mergeColumns existing incomingFields = existing ++ extra ∧
        extra.Sublist incomingFields ∧ ∀ x ∈ extra, x ∉ existing) ∧
      (∀ f ∈ incomingFields, f ∈ mergeColumns existing incomingFields) ∧
      (existing.Nodup → (mergeColumns existing incomingFields).Nodup) := by
  refine ⟨by decide, fun existing incomingFields => ⟨?_, ?_, ?_⟩⟩
  · exact mergeColumns_extra incomingFields existing
  · exact fun f hf => mem_mergeColumns_of_mem_right incomingFields existing f hf
  · exact fun h => mergeColumns_nodup incomingFields existing h

theorem claim_C5_witness :
    (mergeColumns ["a", "b"] ["b", "c"]).Nodup ∧
    "c" ∈ mergeColumns ["a", "b"] ["b", "c"] :=
  ⟨(claim_C5.2 ["a", "b"] ["b", "c"]).2.2 (by decide),
   (claim_C5.2 ["a", "b"] ["b", "c"]).2.1 "c" (by decide)⟩

/-! ### Theorems for `groupConsecutiveRanges` (claim C2) -/

theorem exists_mem_append_ranges (P : SheetRange → Prop) (l1 l2 : List SheetRange) :
    (∃ r ∈ l1 ++ l2, P r) ↔ (∃ r ∈ l1, P r) ∨ (∃ r ∈ l2, P r) := by
  simp [List.mem_append, or_and_right, exists_or]

theorem exists_mem_singleton_range (P : SheetRange → Prop) (s : SheetRange) :
    (∃ r ∈ [s], P r) ↔ P s := by simp

theorem mem_singleton_range {r s : SheetRange} (h : r ∈ [s]) : r = s := by
  simpa using h

/-- Invariant of the grouping loop: given a strictly descending remainder all
below the current run `[curEnd, start]`, and already-emitted ranges that are
well-formed, mutually non-adjacent and entirely above the run, the final
output is well-formed, pairwise separated, and covers exactly the emitted
ranges, the current run and the remainder. -/
theorem groupLoop_spec :
    ∀ (l : List Int) (start curEnd : Int) (ranges : List SheetRange),
      List.Pairwise (· > ·) l →
      (∀ y ∈ l, y < curEnd) →
      curEnd ≤ start →
      (∀ r ∈ ranges, r.start ≤ r.end_) →
      (∀ r ∈ ranges, start + 1 < r.start) →
      List.Pairwise (fun r1 r2 => r2.end_ + 1 < r1.start) ranges →
      (∀ r ∈ groupLoop l start curEnd ranges, r.start ≤ r.end_) ∧
      List.Pairwise (fun r1 r2 => r2.end_ + 1 < r1.start)
        (groupLoop l start curEnd ranges) ∧
      (∀ x : Int, (∃ r ∈ groupLoop l start curEnd ranges, rangeMem r x) ↔
        ((∃ r ∈ ranges, rangeMem r x) ∨ (curEnd ≤ x ∧ x ≤ start) ∨ x ∈ l)) := by
  intro l
  induction l with
  | nil =>
    intro start curEnd ranges _ _ hcs hwf hup hpw
    refine ⟨?_, ?_, ?_⟩
    · intro r hr
      rcases List.mem_append.mp hr with hr | hr
      · exact hwf r hr
      · rw [mem_singleton_range hr]
        exact hcs
    · rw [show groupLoop [] start curEnd ranges = ranges ++ [⟨curEnd, start⟩] from rfl]
      rw [List.pairwise_append]
      refine ⟨hpw, List.pairwise_singleton _ _, ?_⟩
      intro r hr r' hr'
      rw [mem_singleton_range hr']
      exact hup r hr
    · intro x
      rw [show groupLoop [] start curEnd ranges = ranges ++ [⟨curEnd, start⟩] from rfl]
      rw [exists_mem_append_ranges, exists_mem_singleton_range]
      simp only [List.not_mem_nil, or_false]
      exact Iff.rfl
  | cons x rest ih =>
    intro start curEnd ranges hsort hlt hcs hwf hup hpw
    have hxc : x < curEnd := hlt x (List.mem_cons_self x rest)
    have hrest : List.Pairwise (· > ·) rest := (List.pairwise_cons.mp hsort).2
    have hrlt : ∀ y ∈ rest, y < x := fun y hy => (List.pairwise_cons.mp hsort).1 y hy
    by_cases hx : x = curEnd - 1
    · rw [show groupLoop (x :: rest) start curEnd ranges =
          groupLoop rest start x ranges from by rw [groupLoop]; rw [if_pos hx]]
      obtain ⟨g1, g2, g3⟩ := ih start x ranges hrest hrlt (by omega) hwf hup hpw
      refine ⟨g1, g2, ?_⟩
      intro t
      rw [g3 t]
      simp only [List.mem_cons]
      constructor
      · rintro (h | h | h)
        · exact Or.inl h
        · rcases (by omega : t = x ∨ curEnd ≤ t) with rfl | hc
          · exact Or.inr (Or.inr (Or.inl rfl))
          · exact Or.inr (Or.inl ⟨hc, h.2⟩)
        · exact Or.inr (Or.inr (Or.inr h))
      · rintro (h | h | rfl | h)
        · exact Or.inl h
        · exact Or.inr (Or.inl ⟨by omega, h.2⟩)
        · exact Or.inr (Or.inl ⟨le_refl t, by omega⟩)
        · exact Or.inr (Or.inr h)
    · have hx1 : x + 1 < curEnd := by omega
      rw [show groupLoop (x :: rest) start curEnd ranges =
          groupLoop rest x x (ranges ++ [⟨curEnd, start⟩]) from by
        rw [groupLoop]; rw [if_neg hx]]
      have hwf' : ∀ r ∈ ranges ++ [⟨curEnd, start⟩], r.start ≤ r.end_ := by
        intro r hr
        rcases List.mem_append.mp hr with hr | hr
        · exact hwf r hr
        · rw [mem_singleton_range hr]
          exact hcs
      have hup' : ∀ r ∈ ranges ++ [⟨curEnd, start⟩], x + 1 < r.start := by
        intro r hr
        rcases List.mem_append.mp hr with hr | hr
        · have := hup r hr
          omega
        · rw [mem_singleton_range hr]
          exact hx1
      have hpw' : List.Pairwise (fun r1 r2 => r2.end_ + 1 < r1.start)
          (ranges ++ [⟨curEnd, start⟩]) := by
        rw [List.pairwise_append]
        refine ⟨hpw, List.pairwise_singleton _ _, ?_⟩
        intro r hr r' hr'
        rw [mem_singleton_range hr']
        exact hup r hr
      obtain ⟨g1, g2, g3⟩ := ih x x (ranges ++ [⟨curEnd, start⟩]) hrest hrlt
        (le_refl x) hwf' hup' hpw'
      refine ⟨g1, g2, ?_⟩
      intro t
      rw [g3 t]
      rw [exists_mem_append_ranges, exists_mem_singleton_range]
      simp only [List.mem_cons]
      constructor
      · rintro ((h | h) | h | h)
        · exact Or.inl h
        · exact Or.inr (Or.inl h)
        · exact Or.inr (Or.inr (Or.inl (by omega)))
        · exact Or.inr (Or.inr (Or.inr h))
      · rintro (h | h | rfl | h)
        · exact Or.inl (Or.inl h)
        · exact Or.inl (Or.inr h)
        · exact Or.inr (Or.inl ⟨le_refl t, le_refl t⟩)
        · exact Or.inr (Or.inr h)

theorem sortDesc_pairwise_gt (l : List Int) (hnd : l.Nodup) :
    List.Pairwise (· > ·) (sortDesc l) := by
  have hsorted : List.Pairwise (fun a b : Int => b ≤ a) (sortDesc l) :=
    List.sorted_insertionSort _ l
  have hnd' : (sortDesc l).Nodup := ((List.perm_insertionSort _ l).nodup_iff).mpr hnd
  exact (hsorted.and hnd').imp fun h => lt_of_le_of_ne h.1 (Ne.symm h.2)

/-- For a duplicate-free input, `groupConsecutiveRanges` returns well-formed
ranges, pairwise separated by at least one missing position, whose union is
exactly the input set. -/
theorem groupConsecutiveRanges_spec (l : List Int) (hnd : l.Nodup) :
    (∀ r ∈ groupConsecutiveRanges l, r.start ≤ r.end_) ∧
    List.Pairwise (fun r1 r2 => r2.end_ + 1 < r1.start) (groupConsecutiveRanges l) ∧
    (∀ x : Int, (∃ r ∈ groupConsecutiveRanges l, rangeMem r x) ↔ x ∈ l) := by
  have hperm : List.Perm (sortDesc l) l := List.perm_insertionSort _ l
  have hpair := sortDesc_pairwise_gt l hnd
  unfold groupConsecutiveRanges
  cases hsd : sortDesc l with
  | nil =>
    have hl : l = [] := by
      have h0 := hperm.length_eq
      rw [hsd] at h0
      exact List.eq_nil_of_length_eq_zero h0.symm
    subst hl
    refine ⟨by simp, by simp, ?_⟩
    intro x
    simp
  | cons h rest =>
    rw [hsd] at hpair
    have hcons := List.pairwise_cons.mp hpair
    obtain ⟨g1, g2, g3⟩ := groupLoop_spec rest h h [] hcons.2
      (fun y hy => hcons.1 y hy) (le_refl h)
      (by intro r hr; cases hr) (by intro r hr; cases hr) List.Pairwise.nil
    refine ⟨g1, g2, ?_⟩
    intro x
    rw [g3 x]
    have hmem : x ∈ l ↔ x ∈ sortDesc l := (hperm.mem_iff).symm
    rw [hmem, hsd]
    simp only [List.mem_cons]
    constructor
    · rintro (h' | h' | h')
      · obtain ⟨r, hr, -⟩ := h'
        cases hr
      · exact Or.inl (by omega)
      · exact Or.inr h'
    · rintro (rfl | h')
      · exact Or.inr (Or.inl ⟨le_refl x, le_refl x⟩)
      · exact Or.inr (Or.inr h')

/-- Claim C2 as frozen is false for inputs with duplicates: on `[5,5]` the
two returned ranges coincide, so they are not pairwise disjoint. -/
theorem claim_C2_counterexample :
    groupConsecutiveRanges [5, 5] = [⟨5, 5⟩, ⟨5, 5⟩] ∧
    ¬ List.Pairwise (fun r1 r2 => ∀ x : Int, ¬(rangeMem r1 x ∧ rangeMem r2 x))
        (groupConsecutiveRanges [5, 5]) := by
  refine ⟨by decide, ?_⟩
  intro h
  rw [(by decide : groupConsecutiveRanges [5, 5] = [⟨5, 5⟩, ⟨5, 5⟩])] at h
  have h2 := (List.pairwise_cons.mp h).1 ⟨5, 5⟩ (List.mem_cons_self _ _)
  exact h2 5 ⟨⟨le_refl 5, le_refl 5⟩, ⟨le_refl 5, le_refl 5⟩⟩

/-- Claim C2, amended: `groupConsecutiveRanges([5,6,7,10])` is
`[{start:10,end:10},{start:5,end:7}]`, `groupConsecutiveRanges([])` is `[]`,
and for every duplicate-free input list the union of the returned ranges is
exactly the input set, the ranges are pairwise disjoint, and they are emitted
in descending order. -/
theorem claim_C2 :
    groupConsecutiveRanges [5, 6, 7, 10] = [⟨10, 10⟩, ⟨5, 7⟩] ∧
    groupConsecutiveRanges [] = [] ∧
    ∀ l : List Int, l.Nodup →
      (∀ x : Int, (∃ r ∈ groupConsecutiveRanges l, rangeMem r x) ↔ x ∈ l) ∧
      List.Pairwise (fun r1 r2 => ∀ x : Int, ¬(rangeMem r1 x ∧ rangeMem r2 x))
        (groupConsecutiveRanges l) ∧
      List.Pairwise (fun r1 r2 => r2.end_ < r1.start) (groupConsecutiveRanges l) := by
  refine ⟨by decide, by decide, fun l hnd => ?_⟩
  obtain ⟨g1, g2, g3⟩ := groupConsecutiveRanges_spec l hnd
  refine ⟨g3, ?_, ?_⟩
  · refine g2.imp fun {r1 r2} hsep => ?_
    intro x hx
    obtain ⟨⟨h1, -⟩, ⟨-, h4⟩⟩ := hx
    omega
  · exact g2.imp fun {r1 r2} hsep => by omega

theorem claim_C2_witness :
    (∃ r ∈ groupConsecutiveRanges [5, 6, 7, 10], rangeMem r 6) ∧
    List.Pairwise (fun r1 r2 => r2.end_ < r1.start)
      (groupConsecutiveRanges [5, 6, 7, 10]) :=
  ⟨((claim_C2.2.2 [5, 6, 7, 10] (by decide)).1 6).mpr (by decide),
   (claim_C2.2.2 [5, 6, 7, 10] (by decide)).2.2⟩

/-! ### Theorems for `normalizeDate` (claims C3 and C6) -/

theorem decDigits_lt10 (n : Nat) (h : n < 10) : decDigits n = [Nat.digitChar n] := by
  rw [decDigits]
  simp [h]

theorem decDigits_ge10 (n : Nat) (h : 10 ≤ n) :
    decDigits n = decDigits (n / 10) ++ [Nat.digitChar (n % 10)] := by
  rw [decDigits]
  simp [Nat.not_lt.mpr h]

theorem digitChar_isDigit : ∀ k, k < 10 → (Nat.digitChar k).isDigit = true := by decide

theorem digitVal_digitChar : ∀ k, k < 10 → digitVal (Nat.digitChar k) = k := by decide

theorem isDigit_not_ws (c : Char) (h : c.isDigit = true) : isJsWs c = false := by
  unfold isJsWs
  rw [decide_eq_false_iff_not]
  rintro (rfl | rfl | rfl | rfl | rfl | rfl) <;> exact absurd h (by decide)

theorem dash_not_ws : isJsWs '-' = false := by decide

theorem decDigits_four (n : Nat) (h1 : 1000 ≤ n) (h2 : n ≤ 9999) :
    decDigits n = [Nat.digitChar (n / 1000), Nat.digitChar (n / 100 % 10),
      Nat.digitChar (n / 10 % 10), Nat.digitChar (n % 10)] := by
  rw [decDigits_ge10 n (by omega), decDigits_ge10 (n / 10) (by omega),
    decDigits_ge10 (n / 10 / 10) (by omega),
    decDigits_lt10 (n / 10 / 10 / 10) (by omega)]
  have e1 : n / 10 / 10 = n / 100 := by omega
  have e2 : n / 10 / 10 / 10 = n / 1000 := by omega
  rw [e1] at *
  rw [e2]
  simp

theorem pad2_data (k : Nat) (hk : k ≤ 99) :
    (pad2 k).data = [Nat.digitChar (k / 10), Nat.digitChar (k % 10)] := by
  by_cases h : k < 10
  · rw [pad2, if_pos h, decDigits_lt10 k h]
    have h0 : k / 10 = 0 := by omega
    have h1 : k % 10 = k := by omega
    rw [h0, h1]
    rfl
  · rw [pad2, if_neg h, decDigits_ge10 k (by omega), decDigits_lt10 (k / 10) (by omega)]
    rfl

theorem string_mk_data (s : String) : String.mk s.data = s := rfl

theorem formatYMD_data (date : JSDate) (hy1 : 1000 ≤ date.year) (hy2 : date.year ≤ 9999)
    (hm : date.month ≤ 99) (hd : date.day ≤ 99) :
    (formatYMD date).data =
      [Nat.digitChar (date.year.toNat / 1000), Nat.digitChar (date.year.toNat / 100 % 10),
       Nat.digitChar (date.year.toNat / 10 % 10), Nat.digitChar (date.year.toNat % 10), '-',
       Nat.digitChar (date.month / 10), Nat.digitChar (date.month % 10), '-',
       Nat.digitChar (date.day / 10), Nat.digitChar (date.day % 10)] := by
  have hny : ¬ (date.year < 0) := by omega
  rw [formatYMD, intDec, if_neg hny]
  rw [String.data_append, String.data_append, String.data_append, String.data_append]
  rw [pad2_data date.month hm, pad2_data date.day hd]
  rw [decDigits_four date.year.toNat (by omega) (by omega)]
  rfl

theorem parseCanonical_formatYMD (date : JSDate)
    (hy1 : 1000 ≤ date.year) (hy2 : date.year ≤ 9999)
    (hm1 : 1 ≤ date.month) (hm2 : date.month ≤ 12)
    (hd1 : 1 ≤ date.day) (hd2 : date.day ≤ 31) :
    parseCanonical (formatYMD date).data = some (date.year, date.month, date.day) := by
  have hy0 : (0 : Int) ≤ date.year := by omega
  have hn1 : 1000 ≤ date.year.toNat := by omega
  have hn2 : date.year.toNat ≤ 9999 := by omega
  rw [formatYMD_data date hy1 hy2 (by omega) (by omega)]
  rw [parseCanonical]
  rw [if_pos ⟨digitChar_isDigit _ (by omega), digitChar_isDigit _ (by omega),
    digitChar_isDigit _ (by omega), digitChar_isDigit _ (by omega), rfl,
    digitChar_isDigit _ (by omega), digitChar_isDigit _ (by omega), rfl,
    digitChar_isDigit _ (by omega), digitChar_isDigit _ (by omega)⟩]
  rw [digitVal_digitChar _ (by omega), digitVal_digitChar _ (by omega),
    digitVal_digitChar _ (by omega), digitVal_digitChar _ (by omega),
    digitVal_digitChar _ (by omega), digitVal_digitChar _ (by omega),
    digitVal_digitChar _ (by omega), digitVal_digitChar _ (by omega)]
  have ey : date.year.toNat / 1000 * 1000 + date.year.toNat / 100 % 10 * 100 +
      date.year.toNat / 10 % 10 * 10 + date.year.toNat % 10 = date.year.toNat := by
    omega
  have em : date.month / 10 * 10 + date.month % 10 = date.month := by omega
  have ed : date.day / 10 * 10 + date.day % 10 = date.day := by omega
  rw [ey, em, ed, Int.toNat_of_nonneg hy0]

theorem parseCanonical_shape {l : List Char} {y : Int} {m d : Nat}
    (h : parseCanonical l = some (y, m, d)) :
    ∀ c ∈ l, c.isDigit = true ∨ c = '-' := by
  unfold parseCanonical at h
  split at h
  next y1 y2 y3 y4 s1 m1 m2 s2 d1 d2 =>
    split at h
    · next hcond =>
      obtain ⟨h1, h2, h3, h4, h5, h6, h7, h8, h9, h10⟩ := hcond
      intro c hc
      simp only [List.mem_cons, List.not_mem_nil, or_false] at hc
      rcases hc with rfl | rfl | rfl | rfl | rfl | rfl | rfl | rfl | rfl | rfl
      exacts [Or.inl h1, Or.inl h2, Or.inl h3, Or.inl h4, Or.inr h5, Or.inl h6,
        Or.inl h7, Or.inr h8, Or.inl h9, Or.inl h10]
    · exact absurd h (by simp)
  next => exact absurd h (by simp)

theorem dropWhile_ws_eq_self (l : List Char) (h : ∀ c ∈ l, isJsWs c = false) :
    l.dropWhile isJsWs = l := by
  cases l with
  | nil => rfl
  | cons a t => simp [List.dropWhile_cons, h a (List.mem_cons_self a t)]

theorem trimChars_eq_self (l : List Char) (h : ∀ c ∈ l, isJsWs c = false) :
    trimChars l = l := by
  unfold trimChars
  rw [dropWhile_ws_eq_self l h]
  rw [dropWhile_ws_eq_self l.reverse (fun c hc => h c (List.mem_reverse.mp hc))]
  exact List.reverse_reverse l

theorem jsTrim_eq_self (s : String) (h : ∀ c ∈ s.data, isJsWs c = false) :
    jsTrim s = s := by
  unfold jsTrim
  rw [trimChars_eq_self s.data h]

/-- A string in canonical `YYYY-MM-DD` shape holding a valid calendar date is
a fixpoint of `normalizeDate`. -/
theorem normalizeDate_canonical_fix (impl : String → Option JSDate) (x : String)
    (y : Int) (m d : Nat)
    (hp : parseCanonical x.data = some (y, m, d))
    (hv : validCalendarDate y m d = true) :
    normalizeDate impl x = x := by
  have hshape := parseCanonical_shape hp
  have hnws : ∀ c ∈ x.data, isJsWs c = false := by
    intro c hc
    rcases hshape c hc with hdig | rfl
    · exact isDigit_not_ws c hdig
    · exact dash_not_ws
  have hne : x ≠ "" := by
    intro h0
    rw [h0] at hp
    exact Option.noConfusion hp
  simp only [normalizeDate, if_neg hne, jsTrim_eq_self x hnws, hp, hv, if_true]

theorem daysInMonth_le_31 (y : Int) (m : Nat) : daysInMonth y m ≤ 31 := by
  unfold daysInMonth
  split
  · split <;> omega
  · split <;> omega

/-- The formatted output of the general-parse branch re-normalizes to itself
when the parsed date is a valid calendar date with a four-digit year. -/
theorem normalizeDate_formatYMD_fix (impl : String → Option JSDate) (date : JSDate)
    (hv : validCalendarDate date.year date.month date.day = true)
    (hy1 : 1000 ≤ date.year) (hy2 : date.year ≤ 9999) :
    normalizeDate impl (formatYMD date) = formatYMD date := by
  have hv' := hv
  simp only [validCalendarDate, decide_eq_true_eq] at hv'
  obtain ⟨hm1, hm2, hd1, hdm⟩ := hv'
  have hd31 : date.day ≤ 31 := le_trans hdm (daysInMonth_le_31 _ _)
  exact normalizeDate_canonical_fix impl _ date.year date.month date.day
    (parseCanonical_formatYMD date hy1 hy2 hm1 hm2 hd1 hd31) hv

/-- Claim C6: an invalid calendar date presented in canonical shape
normalizes to the empty string, whatever the runtime's general parser does. -/
theorem claim_C6 (impl : String → Option JSDate) :
    normalizeDate impl "2024-13-40" = "" := rfl

/-- Claim C3: `normalizeDate` is idempotent on success, and canonical valid
dates are fixpoints. The implementation-defined general parser is assumed to
report only valid calendar dates with four-digit years, which is what the
`Date` local getters produce for every date this pipeline handles. -/
theorem claim_C3 (impl : String → Option JSDate)
    (himpl : ∀ s date, impl s = some date →
      validCalendarDate date.year date.month date.day = true ∧
      1000 ≤ date.year ∧ date.year ≤ 9999) :
    (∀ x, normalizeDate impl x ≠ "" →
      normalizeDate impl (normalizeDate impl x) = normalizeDate impl x) ∧
    (∀ x (y : Int) (m d : Nat), parseCanonical x.data = some (y, m, d) →
      validCalendarDate y m d = true → normalizeDate impl x = x) := by
  constructor
  · intro x hx
    by_cases hne : x = ""
    · rw [hne] at hx
      exact absurd rfl hx
    · rcases hpc : parseCanonical (jsTrim x).data with _ | ⟨y, m, d⟩
      · rcases himp : impl (jsTrim x) with _ | date
        · have h0 : normalizeDate impl x = "" := by
            simp [normalizeDate, hne, hpc, himp]
          exact absurd h0 hx
        · have hr : normalizeDate impl x = formatYMD date := by
            simp [normalizeDate, hne, hpc, himp]
          obtain ⟨hv, hy1, hy2⟩ := himpl (jsTrim x) date himp
          rw [hr]
          exact normalizeDate_formatYMD_fix impl date hv hy1 hy2
      · by_cases hv : validCalendarDate y m d = true
        · have hr : normalizeDate impl x = jsTrim x := by
            simp [normalizeDate, hne, hpc, hv]
          rw [hr]
          exact normalizeDate_canonical_fix impl (jsTrim x) y m d hpc hv
        · have h0 : normalizeDate impl x = "" := by
            simp [normalizeDate, hne, hpc, hv]
          exact absurd h0 hx
  · intro x y m d hp hv
    exact normalizeDate_canonical_fix impl x y m d hp hv

theorem claim_C3_witness :
    normalizeDate (fun _ => none) "2024-01-15" = "2024-01-15" ∧
    normalizeDate (fun _ => none) (normalizeDate (fun _ => none) "2024-01-15") =
      normalizeDate (fun _ => none) "2024-01-15" := by
  have h := claim_C3 (fun _ => none) (fun s date hs => Option.noConfusion hs)
  have hfix := h.2 "2024-01-15" 2024 1 15 (by decide) (by decide)
  exact ⟨hfix, h.1 "2024-01-15" (by rw [hfix]; decide)⟩

/-! ### Theorems for the lock manager (claim C7) -/

theorem isPrefixOf_append_right (l t : List Char) : l.isPrefixOf (l ++ t) = true := by
  induction l with
  | nil => simp
  | cons c rest ih => simp [List.isPrefixOf, ih]

theorem listHasInfixAux_append_left (mid post : List Char) :
    listHasInfixAux mid (mid ++ post) = true := by
  cases mid with
  | nil =>
    cases post with
    | nil => rfl
    | cons c rest => simp [listHasInfixAux]
  | cons m rest =>
    have h := isPrefixOf_append_right (m :: rest) post
    rw [List.cons_append] at h
    rw [List.cons_append]
    show ((m :: rest).isPrefixOf (m :: (rest ++ post)) ||
      listHasInfixAux (m :: rest) (rest ++ post)) = true
    rw [h]
    rfl

theorem listHasInfixAux_middle (pre mid post : List Char) :
    listHasInfixAux mid (pre ++ (mid ++ post)) = true := by
  induction pre with
  | nil =>
    rw [List.nil_append]
    exact listHasInfixAux_append_left mid post
  | cons p pre ih =>
    rw [List.cons_append]
    show (mid.isPrefixOf (p :: (pre ++ (mid ++ post))) ||
      listHasInfixAux mid (pre ++ (mid ++ post))) = true
    rw [ih]
    exact Bool.or_true _

/-- A string whose character data splits as `pre ++ needle ++ post` contains
`needle`. -/
theorem strIncludes_of_parts (hay needle : String) (pre post : List Char)
    (h : hay.data = pre ++ (needle.data ++ post)) : strIncludes hay needle = true := by
  unfold strIncludes
  rw [h]
  exact listHasInfixAux_middle pre needle.data post

/-- Claim C7: an existing lock older than 30 minutes is discarded and a fresh
lock record is written; one at most 30 minutes old makes acquisition fail
with the contention error, whose text names the lock's age in seconds. -/
theorem claim_C7 (now : Int) (st : LockState) (lockFile : String)
    (newLock : LockData) :
    (now - st.mtimeMs > lockStaleThresholdMs →
      acquireLock now (some st) lockFile newLock = .ok newLock) ∧
    (now - st.mtimeMs ≤ lockStaleThresholdMs →
      acquireLock now (some st) lockFile newLock =
        .error (lockContentionMessage lockFile (now - st.mtimeMs)) ∧
      strIncludes (lockContentionMessage lockFile (now - st.mtimeMs))
        (intDec (jsRound (((now - st.mtimeMs : Int) : ℚ) / 1000)) ++ "s") = true) := by
  constructor
  · intro h
    simp [acquireLock, h]
  · intro h
    have hcond : ¬ (now - st.mtimeMs > lockStaleThresholdMs) := by omega
    refine ⟨by simp [acquireLock, hcond], ?_⟩
    refine strIncludes_of_parts _ _
      ("Another writer process is running (lock age: " : String).data
      (("). Please wait or remove " : String).data ++ lockFile.data) ?_
    unfold lockContentionMessage
    rw [String.data_append, String.data_append, String.data_append,
      String.data_append]
    have hS : ("s). Please wait or remove " : String).data =
        ("s" : String).data ++ ("). Please wait or remove " : String).data := rfl
    rw [hS]
    simp [List.append_assoc]

theorem claim_C7_witness :
    2400000 - (0 : Int) > lockStaleThresholdMs ∧
    acquireLock 2400000 (some ⟨0⟩) ".writer-lock" ⟨1, "t", "s"⟩ =
      .ok ⟨1, "t", "s"⟩ ∧
    600000 - (0 : Int) ≤ lockStaleThresholdMs ∧
    acquireLock 600000 (some ⟨0⟩) ".writer-lock" ⟨1, "t", "s"⟩ =
      .error (lockContentionMessage ".writer-lock" (600000 - 0)) :=
  ⟨by norm_num [lockStaleThresholdMs],
   (claim_C7 2400000 ⟨0⟩ ".writer-lock" ⟨1, "t", "s"⟩).1
     (by norm_num [lockStaleThresholdMs]),
   by norm_num [lockStaleThresholdMs],
   ((claim_C7 600000 ⟨0⟩ ".writer-lock" ⟨1, "t", "s"⟩).2
     (by norm_num [lockStaleThresholdMs])).1⟩

/-! ### Theorems for the reconciliation engine (claims C8, C9, C10) -/

/-- Claim C8: a non-empty batch written incrementally against an empty
snapshot degrades to a full refresh, and the statistics report
`newRecords = totalRecords` and `deletedRecords = 0`. -/
theorem claim_C8 (impl : String → Option JSDate) (dateFields : List String)
    (dryRun : Bool) (records : List JsRecord) (availableRows : Nat)
    (hne : records ≠ []) :
    performIncrementalUpdate impl dateFields dryRun records [] availableRows =
      (StoreAction.readSnapshot ::
        (performFullRefresh impl dateFields dryRun records).1,
        (performFullRefresh impl dateFields dryRun records).2) ∧
    (performIncrementalUpdate impl dateFields dryRun records [] availableRows).2.newRecords =
      (performIncrementalUpdate impl dateFields dryRun records [] availableRows).2.totalRecords ∧
    (performIncrementalUpdate impl dateFields dryRun records [] availableRows).2.deletedRecords =
      0 := by
  have h0 : performIncrementalUpdate impl dateFields dryRun records [] availableRows =
      (StoreAction.readSnapshot ::
        (performFullRefresh impl dateFields dryRun records).1,
        (performFullRefresh impl dateFields dryRun records).2) := by
    simp [performIncrementalUpdate]
  refine ⟨h0, ?_, ?_⟩ <;> rw [h0] <;> simp [performFullRefresh]

theorem claim_C8_witness :
    ([[("date", JsValue.str "2024-01-01")]] : List JsRecord) ≠ [] ∧
    (performIncrementalUpdate (fun _ => none) ["date"] false
      [[("date", JsValue.str "2024-01-01")]] [] 0).2.deletedRecords = 0 :=
  ⟨List.cons_ne_nil _ _,
   (claim_C8 (fun _ => none) ["date"] false [[("date", JsValue.str "2024-01-01")]] 0
     (List.cons_ne_nil _ _)).2.2⟩

theorem performFullRefresh_snd_indep (impl : String → Option JSDate)
    (dateFields : List String) (d1 d2 : Bool) (records : List JsRecord) :
    (performFullRefresh impl dateFields d1 records).2 =
    (performFullRefresh impl dateFields d2 records).2 := rfl

theorem performIncrementalUpdate_snd_indep (impl : String → Option JSDate)
    (dateFields : List String) (d1 d2 : Bool) (records : List JsRecord)
    (existingData : List (List String)) (availableRows : Nat) :
    (performIncrementalUpdate impl dateFields d1 records existingData availableRows).2 =
    (performIncrementalUpdate impl dateFields d2 records existingData availableRows).2 := by
  by_cases h : existingData.length = 0
  · simp [performIncrementalUpdate, h,
      performFullRefresh_snd_indep impl dateFields d1 d2 records]
  · simp [performIncrementalUpdate, h]

theorem writeBody_snd_indep (impl : String → Option JSDate)
    (dateFields : List String) (fullRefresh : Bool) (d1 d2 : Bool)
    (records : List JsRecord) (existingData : List (List String))
    (availableRows : Nat) :
    (writeBody impl dateFields fullRefresh d1 records existingData availableRows).2 =
    (writeBody impl dateFields fullRefresh d2 records existingData availableRows).2 := by
  by_cases hrec : records.length = 0
  · simp [writeBody, hrec]
  · cases fullRefresh
    · simp [writeBody, hrec, performIncrementalUpdate_snd_indep impl dateFields
        d1 d2 records existingData availableRows]
    · simp [writeBody, hrec, performFullRefresh_snd_indep impl dateFields
        d1 d2 records]

/-- Claim C9: in dry-run mode `writeData` performs no mutating store call and
never touches the lock (its trace holds only read actions), and it returns
exactly the result the non-dry-run invocation would return on the same
inputs with a free lock. -/
theorem claim_C9 (impl : String → Option JSDate) (dateFields : List String)
    (fullRefresh : Bool) (now : Int) (lockState : Option LockState)
    (lockFile : String) (newLock : LockData) (records : List JsRecord)
    (existingData : List (List String)) (availableRows : Nat) :
    ((writeData impl dateFields fullRefresh true now lockState lockFile newLock
        records existingData availableRows).1.all
      fun a => !actionMutatesStore a && !actionTouchesLock a) = true ∧
    (writeData impl dateFields fullRefresh true now lockState lockFile newLock
        records existingData availableRows).2 =
      (writeData impl dateFields fullRefresh false now none lockFile newLock
        records existingData availableRows).2 := by
  constructor
  · by_cases hrec : records.length = 0
    · simp [writeData, writeBody, hrec]
    · cases fullRefresh
      · by_cases hex : existingData.length = 0
        · simp [writeData, writeBody, performIncrementalUpdate, performFullRefresh,
            hrec, hex, actionMutatesStore, actionTouchesLock]
        · simp [writeData, writeBody, performIncrementalUpdate, hrec, hex,
            actionMutatesStore, actionTouchesLock]
      · simp [writeData, writeBody, performFullRefresh, hrec]
  · have hwet : (writeData impl dateFields fullRefresh false now none lockFile
        newLock records existingData availableRows).2 =
        (writeBody impl dateFields fullRefresh false records existingData
          availableRows).2 := by
      simp [writeData, acquireLock]
    have hdry : (writeData impl dateFields fullRefresh true now lockState lockFile
        newLock records existingData availableRows).2 =
        (writeBody impl dateFields fullRefresh true records existingData
          availableRows).2 := by
      simp [writeData]
    rw [hdry, hwet]
    exact writeBody_snd_indep impl dateFields fullRefresh true false records
      existingData availableRows

/-- Claim C10: an empty batch makes `writeData` fail with
`'❌ No data to write'` before any store action; outside dry-run the lock
acquired at the start is still released, so the trace is exactly
acquire-then-release. -/
theorem claim_C10 (impl : String → Option JSDate) (dateFields : List String)
    (fullRefresh dryRun : Bool) (now : Int) (lockFile : String)
    (newLock : LockData) (existingData : List (List String))
    (availableRows : Nat) :
    writeData impl dateFields fullRefresh dryRun now none lockFile newLock []
        existingData availableRows =
      ((if dryRun then [] else [StoreAction.lockAcquire, StoreAction.lockRelease]),
        .error "❌ No data to write") := by
  cases dryRun
  · simp [writeData, writeBody, acquireLock]
  · simp [writeData, writeBody]
